import Mathlib

/-
Shallow embedding of the egui_skia renderer core (src/painter.rs):
the texture cache (`Painter.paints`), the per-frame entry point
`paint_and_update_textures`, the mesh vertex pipeline (`push_vert`, the
UV fixup and the NaN fixup of the triangle loop), the un-premultiply
color conversion, the patch compositing of `ImageDelta`s carrying a
position, the canvas save/restore discipline, and the free loop.

Modelling conventions:
- machine scalars (`f32`) are modelled by `F32`: not-a-number, the two
  infinities, and exact rationals for finite values.  Finite arithmetic
  is exact; every theorem below evaluates it only at inputs where the
  IEEE operations of the source are themselves exact, so the model and
  the source agree at every input a theorem touches.
- `TextureId` is an opaque hashable key, modelled by `Nat`.
- the Skia canvas is modelled by its transform (`Matrix`, a diagonal
  affine map: the only transforms the source installs are uniform
  scales and translations), its clip (the list of intersected clip
  rectangles), its save stack, and a log of issued draw commands.
- fallible source operations (`unwrap`, indexing panics) are `Option`.
-/

/-- Model of an `f32` value: NaN, the infinities, or an exact finite value. -/
inductive F32 where
  | nan : F32
  | inf : F32
  | ninf : F32
  | val : ℚ → F32
deriving DecidableEq, Repr

/-- Model of `f32::is_nan`. -/
def F32.isNan : F32 → Bool
  | F32.nan => true
  | _ => false

/-- Model of IEEE `f32` equality (`==`): NaN compares unequal to everything;
finite values compare by value. -/
def feq : F32 → F32 → Bool
  | F32.nan, _ => false
  | _, F32.nan => false
  | F32.inf, F32.inf => true
  | F32.inf, _ => false
  | F32.ninf, F32.ninf => true
  | F32.ninf, _ => false
  | F32.val _, F32.inf => false
  | F32.val _, F32.ninf => false
  | F32.val a, F32.val b => a == b

/-- Model of `f32` division.  `0.0 / 0.0` is NaN, `x / 0.0` for finite
positive `x` is `inf`.  Division of finite values is exact here; the
theorems below only evaluate it where the source's division is exact. -/
def fdiv : F32 → F32 → F32
  | F32.nan, _ => F32.nan
  | _, F32.nan => F32.nan
  | F32.inf, F32.inf => F32.nan
  | F32.inf, F32.ninf => F32.nan
  | F32.ninf, F32.inf => F32.nan
  | F32.ninf, F32.ninf => F32.nan
  | F32.inf, F32.val b => if b < 0 then F32.ninf else F32.inf
  | F32.ninf, F32.val b => if b < 0 then F32.inf else F32.ninf
  | F32.val _, F32.inf => F32.val 0
  | F32.val _, F32.ninf => F32.val 0
  | F32.val a, F32.val b =>
      if b = 0 then (if a = 0 then F32.nan else if 0 < a then F32.inf else F32.ninf)
      else F32.val (a / b)

/-- Model of `f32` multiplication (exact on finite values; the theorems
below only evaluate it where the source's multiplication is exact). -/
def fmul : F32 → F32 → F32
  | F32.nan, _ => F32.nan
  | _, F32.nan => F32.nan
  | F32.inf, F32.inf => F32.inf
  | F32.inf, F32.ninf => F32.ninf
  | F32.ninf, F32.inf => F32.ninf
  | F32.ninf, F32.ninf => F32.inf
  | F32.inf, F32.val b => if b = 0 then F32.nan else if 0 < b then F32.inf else F32.ninf
  | F32.ninf, F32.val b => if b = 0 then F32.nan else if 0 < b then F32.ninf else F32.inf
  | F32.val a, F32.inf => if a = 0 then F32.nan else if 0 < a then F32.inf else F32.ninf
  | F32.val a, F32.ninf => if a = 0 then F32.nan else if 0 < a then F32.ninf else F32.inf
  | F32.val a, F32.val b => F32.val (a * b)

/-- Model of Rust's saturating `as u8` cast on an `f32`: NaN goes to 0,
negative values and negative infinity to 0, values at or above 255 and
positive infinity to 255, finite in-range values are truncated. -/
def f32AsU8 : F32 → Nat
  | F32.nan => 0
  | F32.inf => 255
  | F32.ninf => 0
  | F32.val q => if q ≤ 0 then 0 else min 255 (Int.floor q).toNat

/-- A 2-D point of `f32` coordinates (egui `Pos2` / Skia `Point`). -/
structure Pos2f where
  x : F32
  y : F32
deriving DecidableEq, Repr

/-- Model of `Pos2`'s derived `==` (componentwise IEEE equality). -/
def pos2Eq (a b : Pos2f) : Bool := feq a.x b.x && feq a.y b.y

/-- Model of `Pos2::ZERO`. -/
def pos2Zero : Pos2f := ⟨F32.val 0, F32.val 0⟩

/-- An 8-bit-per-channel RGBA color (egui `Color32` / Skia `Color`). -/
structure Color32 where
  r : Nat
  g : Nat
  b : Nat
  a : Nat
deriving DecidableEq, Repr

/-- Model of `Color4f::from(Color)`'s per-channel conversion: the 8-bit
channel divided by 255 (exact at the channel values 0 and 255, the only
ones any theorem below evaluates). -/
def u8ToF32 (n : Nat) : F32 := F32.val ((n : ℚ) / 255)

/-- The un-premultiply conversion of `push_vert` (painter.rs lines
188-200): build a `Color4f` from the color, divide the red, green and
blue channels by the alpha channel, scale back by 255, cast each channel
with `as u8`, and keep the original 8-bit alpha. -/
def unpremul (c : Color32) : Color32 :=
  let af := u8ToF32 c.a
  let rf := fdiv (u8ToF32 c.r) af
  let gf := fdiv (u8ToF32 c.g) af
  let bf := fdiv (u8ToF32 c.b) af
  { r := f32AsU8 (fmul rf (F32.val 255))
    g := f32AsU8 (fmul gf (F32.val 255))
    b := f32AsU8 (fmul bf (F32.val 255))
    a := c.a }

/-- An egui mesh vertex: position, texture coordinates, premultiplied color. -/
structure Vertex where
  pos : Pos2f
  uv : Pos2f
  color : Color32
deriving DecidableEq, Repr

/-- A vertex as handed to Skia's `Vertices::new_copy`: the (possibly
NaN-fixed) position, the texture coordinate, and the un-premultiplied
color, in the order `push_vert` pushes them. -/
structure SkVertex where
  pos : Pos2f
  tex : Pos2f
  color : Color32
deriving DecidableEq, Repr

/-- The NaN fixup of `push_vert` (painter.rs lines 179-183): a position
with a NaN coordinate is replaced by the origin, anything else is kept. -/
def fixPos (p : Pos2f) : Pos2f :=
  if p.x.isNan || p.y.isNan then ⟨F32.val 0, F32.val 0⟩ else p

/-- Model of `push_vert` (painter.rs lines 175-201): push the NaN-fixed
position, the untouched UV, and the un-premultiplied color. -/
def pushVert (v : Vertex) : SkVertex :=
  { pos := fixPos v.pos, tex := v.uv, color := unpremul v.color }

/-- The UV fixup of the triangle loop (painter.rs lines 215-218): when
all three UVs compare equal to `Pos2::ZERO`, the second vertex's UV
becomes `(0, 1/65536)` and the third's `(1/65536, 0)`. -/
def fixTriangle (v0 v1 v2 : Vertex) : Vertex × Vertex × Vertex :=
  if pos2Eq v0.uv pos2Zero && pos2Eq v1.uv pos2Zero && pos2Eq v2.uv pos2Zero then
    (v0,
     { v1 with uv := ⟨F32.val 0, F32.val (1 / 65536)⟩ },
     { v2 with uv := ⟨F32.val (1 / 65536), F32.val 0⟩ })
  else (v0, v1, v2)

/-- One triangle of the loop body (painter.rs lines 205-222): UV fixup,
then `push_vert` on each vertex. -/
def emitTriangle (v0 v1 v2 : Vertex) : SkVertex × SkVertex × SkVertex :=
  let t := fixTriangle v0 v1 v2
  (pushVert t.1, pushVert t.2.1, pushVert t.2.2)


/-- A raster pixel: premultiplied RGBA, one byte per channel. -/
structure Pixel where
  r : Nat
  g : Nat
  b : Nat
  a : Nat
deriving DecidableEq, Repr

/-- A raster image: dimensions plus a pixel grid (the grid function is
meaningful on coordinates inside the dimensions). -/
structure Image where
  width : Nat
  height : Nat
  pix : Nat → Nat → Pixel

/-- A fresh `Surface::new_raster_n32_premul` target: fully transparent. -/
def blankImage (w h : Nat) : Image :=
  { width := w, height := h, pix := fun _ _ => ⟨0, 0, 0, 0⟩ }

/-- Source-over blending of one premultiplied channel:
`out = src + dst * (255 - srcAlpha) / 255`. -/
def srcOverChannel (s d sa : Nat) : Nat := s + d * (255 - sa) / 255

/-- Source-over blending of premultiplied pixels (the default blend of
`Canvas::draw_image`). -/
def srcOverPix (s d : Pixel) : Pixel :=
  ⟨srcOverChannel s.r d.r s.a, srcOverChannel s.g d.g s.a,
   srcOverChannel s.b d.b s.a, srcOverChannel s.a d.a s.a⟩

/-- An integer clip rectangle `[l, r) × [t, b)` on a raster surface. -/
structure IRect where
  l : Nat
  t : Nat
  r : Nat
  b : Nat
deriving DecidableEq, Repr

/-- Membership of a raster coordinate in an `IRect`. -/
def IRect.mem (rect : IRect) (x y : Nat) : Prop :=
  rect.l ≤ x ∧ x < rect.r ∧ rect.t ≤ y ∧ y < rect.b

instance (rect : IRect) (x y : Nat) : Decidable (rect.mem x y) := by
  unfold IRect.mem; infer_instance

/-- `Canvas::draw_image` of `src` at offset `(px, py)` onto `dst`,
restricted to an optional clip rectangle, blending source-over. -/
def drawImageAt (dst src : Image) (px py : Nat) (clip : Option IRect) : Image :=
  { dst with
    pix := fun x y =>
      if (∀ c ∈ clip, c.mem x y) ∧ px ≤ x ∧ x < px + src.width ∧ py ≤ y ∧ y < py + src.height
      then srcOverPix (src.pix (x - px) (y - py)) (dst.pix x y)
      else dst.pix x y }

/-- `Canvas::clear(Color::TRANSPARENT)` under a clip: pixels inside the
clip become fully transparent. -/
def clearClip (dst : Image) (clip : IRect) : Image :=
  { dst with pix := fun x y => if clip.mem x y then ⟨0, 0, 0, 0⟩ else dst.pix x y }

/-- The patch compositing of a positioned `ImageDelta` (painter.rs lines
86-114): allocate a surface of the old image's dimensions, draw the old
image at the origin, clip to the patch rectangle, clear it, draw the
patch content at its offset, and snapshot. -/
def applyPatch (old delta : Image) (px py : Nat) : Image :=
  let patchRect : IRect := ⟨px, py, px + delta.width, py + delta.height⟩
  let s := blankImage old.width old.height
  let s := drawImageAt s old 0 0 Option.none
  let s := clearClip s patchRect
  drawImageAt s delta px py (Option.some patchRect)

/-- egui texture sampling filter. -/
inductive TexFilter where
  | nearest : TexFilter
  | linear : TexFilter
deriving DecidableEq, Repr

/-- egui `TextureOptions`: magnification and minification filters. -/
structure TextureOptions where
  magnification : TexFilter
  minification : TexFilter
deriving DecidableEq, Repr

/-- Skia `FilterMode`. -/
inductive FilterMode where
  | nearest : FilterMode
  | linear : FilterMode
deriving DecidableEq, Repr

/-- Skia `MipmapMode`. -/
inductive MipmapMode where
  | nomip : MipmapMode
  | nearest : MipmapMode
  | linear : MipmapMode
deriving DecidableEq, Repr

/-- Skia `SamplingOptions` as built at painter.rs lines 120-135. -/
structure SamplingOptions where
  filter : FilterMode
  mipmap : MipmapMode
deriving DecidableEq, Repr

/-- The `cpu_fix` cargo feature flag (painter.rs line 125); the default
build leaves it disabled. -/
def cpuFix : Bool := false

/-- Skia `TileMode` (only clamp is used, painter.rs line 136). -/
inductive TileMode where
  | clamp : TileMode
deriving DecidableEq, Repr

/-- The shader stored in a cached paint: the image shader built by
`Image::to_shader` with its tile modes, sampling options and local
matrix, wrapped by the pass-through `RuntimeEffect` of `SKSL_SHADER`
(painter.rs lines 140-147). -/
inductive Shader where
  | image : Image → TileMode × TileMode → SamplingOptions → ℚ × ℚ → Shader
  | runtimeEffect : Shader → Shader

/-- A Skia paint whose shader has been set (painter.rs lines 138-149). -/
structure Paint where
  shader : Shader

/-- A cache entry: the paint and the image it wraps. -/
structure PaintHandle where
  paint : Paint
  image : Image

/-- Build the cached paint for an image (painter.rs lines 117-149):
local matrix `scale(1/w, 1/h)`, clamp tiling, the filter mode from the
magnification filter, the mipmap mode from the minification filter
unless the `cpu_fix` feature disables mipmapping. -/
def mkPaint (img : Image) (opts : TextureOptions) : Paint :=
  let localMatrix : ℚ × ℚ := (1 / (img.width : ℚ), 1 / (img.height : ℚ))
  let filter := match opts.magnification with
    | TexFilter.nearest => FilterMode.nearest
    | TexFilter.linear => FilterMode.linear
  let mm := if cpuFix then MipmapMode.nomip else
    match opts.minification with
    | TexFilter.nearest => MipmapMode.nearest
    | TexFilter.linear => MipmapMode.linear
  ⟨Shader.runtimeEffect (Shader.image img (TileMode.clamp, TileMode.clamp) ⟨filter, mm⟩ localMatrix)⟩

/-- The texture cache `Painter.paints`: a map from texture id to entry. -/
def Cache : Type := Nat → Option PaintHandle

/-- The empty cache (`Painter::new`). -/
def emptyCache : Cache := fun _ => Option.none

/-- `HashMap::insert`. -/
def Cache.insert (c : Cache) (id : Nat) (h : PaintHandle) : Cache :=
  fun j => if j = id then Option.some h else c j

/-- `HashMap::remove` (the entry, if any, disappears). -/
def Cache.remove (c : Cache) (id : Nat) : Cache :=
  fun j => if j = id then Option.none else c j

/-- egui `ImageData`: a color image carries its pixels directly; a font
image carries the image produced by `srgba_pixels(Some(1.0))` (an egui
conversion external to this crate, modelled by its resulting grid). -/
inductive ImageData where
  | color : Image → ImageData
  | font : Image → ImageData

/-- The raster image decoded from an `ImageData` (painter.rs lines
45-82: both arms build an `Image::from_raster_data` of the pixels). -/
def ImageData.decode : ImageData → Image
  | ImageData.color img => img
  | ImageData.font img => img

/-- egui `ImageDelta`: new content, an optional patch offset, sampling
options. -/
structure ImageDelta where
  image : ImageData
  pos : Option (Nat × Nat)
  options : TextureOptions

/-- egui `TexturesDelta`: ordered `set` entries and the `free` list. -/
structure TexturesDelta where
  set : List (Nat × ImageDelta)
  free : List Nat

/-- One iteration of the `textures_delta.set` loop (painter.rs lines
44-152).  A delta without a position replaces the entry outright; a
positioned delta takes the old entry out of the map (`remove(&id)`,
whose `unwrap` aborts when the entry is missing), composites the patch,
and inserts the rebuilt entry. -/
def applySet (paints : Cache) : Nat × ImageDelta → Option Cache
  | (id, d) =>
    let deltaImage := d.image.decode
    match d.pos with
    | Option.none =>
        Option.some (paints.insert id ⟨mkPaint deltaImage d.options, deltaImage⟩)
    | Option.some (px, py) =>
        match paints id with
        | Option.none => Option.none
        | Option.some h =>
            let old := h.image
            let paints := paints.remove id
            let image := applyPatch old deltaImage px py
            Option.some (paints.insert id ⟨mkPaint image d.options, image⟩)

/-- The whole `textures_delta.set` loop, in order. -/
def applySets (paints : Cache) : List (Nat × ImageDelta) → Option Cache
  | [] => Option.some paints
  | e :: rest =>
    match applySet paints e with
    | Option.none => Option.none
    | Option.some c => applySets c rest

/-- The `textures_delta.free` loop (painter.rs lines 258-260). -/
def applyFrees (paints : Cache) : List Nat → Cache
  | [] => paints
  | id :: rest => applyFrees (paints.remove id) rest

/-- A clip rectangle in canvas coordinates (egui/Skia `Rect`, exact
scalars). -/
structure Rectq where
  l : ℚ
  t : ℚ
  r : ℚ
  b : ℚ
deriving DecidableEq, Repr

/-- The canvas transform.  The painter only ever installs uniform scales
(`set_matrix` of `M44::new_identity().set_scale(dpi, dpi, 1)`) and
translations, so a diagonal affine map captures every reachable
transform exactly. -/
structure Xform where
  sx : ℚ
  sy : ℚ
  tx : ℚ
  ty : ℚ
deriving DecidableEq, Repr

/-- The matrix installed at painter.rs line 163. -/
def dpiScaleMatrix (dpi : ℚ) : Xform := ⟨dpi, dpi, 0, 0⟩

/-- `Canvas::translate` post-composes a translation onto the current
transform. -/
def Xform.translate (m : Xform) (dx dy : ℚ) : Xform :=
  { m with tx := m.tx + m.sx * dx, ty := m.ty + m.sy * dy }

/-- A recorded drawable (the replayed result of a callback's offscreen
recording), identified opaquely. -/
structure Drawable where
  id : Nat
deriving DecidableEq, Repr

/-- Skia `BlendMode` (only modulate is used, painter.rs line 232). -/
inductive BlendMode where
  | modulate : BlendMode
deriving DecidableEq, Repr

/-- A draw command issued to the canvas. -/
inductive DrawCmd where
  | vertices : List SkVertex → BlendMode → Paint → DrawCmd
  | drawable : Drawable → DrawCmd

/-- The Skia canvas as the painter observes it: current transform,
current clip (the stack of intersected clip rectangles), the save
stack, and the log of issued draw commands. -/
structure Canvas where
  matrix : Xform
  clip : List Rectq
  saved : List (Xform × List Rectq)
  log : List DrawCmd

/-- The transform-and-clip state of a canvas (what one primitive can
observe of its predecessor). -/
def Canvas.state (c : Canvas) : Xform × List Rectq × List (Xform × List Rectq) :=
  (c.matrix, c.clip, c.saved)

/-- `Canvas::save` (performed by `AutoCanvasRestore::guard(_, true)`). -/
def Canvas.save (c : Canvas) : Canvas :=
  { c with saved := (c.matrix, c.clip) :: c.saved }

/-- `Canvas::restore` (performed when the guard drops): pop the save
stack and reinstate the saved transform and clip. -/
def Canvas.restore (c : Canvas) : Canvas :=
  match c.saved with
  | [] => c
  | (m, k) :: rest => { c with matrix := m, clip := k, saved := rest }

/-- `Canvas::set_matrix` replaces the current transform. -/
def Canvas.setMatrix (c : Canvas) (m : Xform) : Canvas := { c with matrix := m }

/-- `Canvas::clip_rect` with `ClipOp::Intersect` narrows the clip. -/
def Canvas.clipRect (c : Canvas) (r : Rectq) : Canvas := { c with clip := r :: c.clip }

/-- `Canvas::translate`. -/
def Canvas.translate (c : Canvas) (dx dy : ℚ) : Canvas :=
  { c with matrix := c.matrix.translate dx dy }

/-- Append a draw command to the canvas log (draw calls read but do not
change the transform/clip state). -/
def Canvas.draw (c : Canvas) (cmd : DrawCmd) : Canvas := { c with log := c.log ++ [cmd] }

/-- An egui `Mesh` (and, with indices below 2^16, a `Mesh16`): texture
reference, vertex list, index list flattened in triangle order. -/
structure Mesh where
  texture_id : Nat
  vertices : List Vertex
  indices : List Nat

/-- `u16::MAX`, the vertex-count bound of egui's mesh splitting. -/
def u16Max : Nat := 65535

/-- The inner span-growing loop of egui's `Mesh::split_to_u16` (an egui
library function, modelled here because the painter calls it at line
166): starting at `cursor` with the running min/max referenced vertex
index, keep absorbing whole triangles while the span stays below the
16-bit limit.  Reading past the end of the index list (a truncated
triangle) is an indexing panic.  The fuel argument dominates the number
of remaining triangles. -/
def growSpan (idx : List Nat) : Nat → Nat → Nat → Nat → Option (Nat × Nat × Nat)
  | 0, cursor, mn, mx => Option.some (cursor, mn, mx)
  | fuel + 1, cursor, mn, mx =>
    if cursor < idx.length then
      match idx[cursor]?, idx[cursor + 1]?, idx[cursor + 2]? with
      | Option.some a, Option.some b, Option.some c =>
        let nmn := min mn (min a (min b c))
        let nmx := max mx (max a (max b c))
        if nmx - nmn < u16Max then growSpan idx fuel (cursor + 3) nmn nmx
        else Option.some (cursor, mn, mx)
      | _, _, _ => Option.none
    else Option.some (cursor, mn, mx)

/-- The outer loop of `Mesh::split_to_u16`: carve the index list into
spans, remapping each span's indices against its minimum and slicing
the referenced vertex range.  A triangle whose own span breaks the
16-bit limit trips the source's assertion (`none` here), as does an
out-of-range vertex slice. -/
def spanSplit (m : Mesh) : Nat → Nat → Option (List Mesh)
  | 0, _ => Option.some []
  | fuel + 1, cursor =>
    if cursor < m.indices.length then
      match m.indices[cursor]? with
      | Option.none => Option.none
      | Option.some v0 =>
        match growSpan m.indices m.indices.length cursor v0 v0 with
        | Option.none => Option.none
        | Option.some (cursor2, mn, mx) =>
          if cursor2 ≤ cursor then Option.none
          else if mx < m.vertices.length then
            let subIndices := ((m.indices.drop cursor).take (cursor2 - cursor)).map (fun vi => vi - mn)
            let subVerts := (m.vertices.drop mn).take (mx + 1 - mn)
            match spanSplit m fuel cursor2 with
            | Option.none => Option.none
            | Option.some rest => Option.some (⟨m.texture_id, subVerts, subIndices⟩ :: rest)
          else Option.none
    else Option.some []

/-- Model of egui's `Mesh::split_to_u16`: a mesh whose vertex count fits
the 16-bit limit passes through as a single sub-mesh whose indices are
cast `as u16` (truncation mod 2^16); a larger mesh is span-split. -/
def splitToU16 (m : Mesh) : Option (List Mesh) :=
  if m.vertices.length ≤ u16Max then
    Option.some [⟨m.texture_id, m.vertices, m.indices.map (fun i => i % 65536)⟩]
  else spanSplit m (m.indices.length + 1) 0

/-- The triangle loop of the mesh arm (painter.rs lines 203-223): walk
the indices three at a time, look the vertices up (an out-of-range
index or a truncated final triangle is an indexing panic), apply the UV
fixup, and push the three fixed vertices. -/
def buildTris (verts : List Vertex) : List Nat → Option (List SkVertex)
  | [] => Option.some []
  | i0 :: i1 :: i2 :: rest =>
    match verts[i0]?, verts[i1]?, verts[i2]? with
    | Option.some v0, Option.some v1, Option.some v2 =>
      let t := emitTriangle v0 v1 v2
      match buildTris verts rest with
      | Option.none => Option.none
      | Option.some out => Option.some (t.1 :: t.2.1 :: t.2.2 :: out)
    | _, _, _ => Option.none
  | _ => Option.none

/-- The body of `for mesh in &meshes` (painter.rs lines 168-233): build
the vertex arrays, clip to the primitive's clip rectangle, look up the
cached paint (`self.paints[&texture_id]`, a panic when absent), and
draw the vertices with modulate blending. -/
def drawSubmeshes (canvas : Canvas) (paints : Cache) (skclip : Rectq) :
    List Mesh → Option Canvas
  | [] => Option.some canvas
  | m :: rest =>
    match buildTris m.vertices m.indices with
    | Option.none => Option.none
    | Option.some vs =>
      let c := canvas.clipRect skclip
      match paints m.texture_id with
      | Option.none => Option.none
      | Option.some h =>
        drawSubmeshes (c.draw (DrawCmd.vertices vs BlendMode.modulate h.paint)) paints skclip rest

/-- The renderer-owned callback payload (`EguiSkiaPaintCallback`): a
function from the device-scaled rectangle to the recorded drawable. -/
structure SkiaCallback where
  callback : Rectq → Drawable

/-- The opaque `callback` field of an egui `PaintCallback`
(`Arc<dyn Any>`): either this renderer's own payload or a foreign one.
`downcast` succeeds only on the former. -/
inductive CallbackPayload where
  | skia : SkiaCallback → CallbackPayload
  | foreign : Nat → CallbackPayload

/-- egui `PaintCallback`: the target rectangle and the opaque payload. -/
structure PaintCallback where
  rect : Rectq
  callback : CallbackPayload

/-- egui `Primitive`: a mesh or a callback. -/
inductive Primitive where
  | mesh : Mesh → Primitive
  | callback : PaintCallback → Primitive

/-- egui `ClippedPrimitive`. -/
structure ClippedPrimitive where
  clip_rect : Rectq
  primitive : Primitive

/-- Processing of one primitive (painter.rs lines 154-256).  Mesh arm:
`set_matrix` to the dpi scale, then a save scoped around the per-mesh
clip and draw, then restore.  Callback arm: downcast the payload (a
foreign payload is an `unwrap` panic), record the drawable for the
device-scaled rectangle, then save, clip, translate to the rectangle's
origin, replay the drawable, and restore. -/
def drawPrim (canvas : Canvas) (paints : Cache) (dpi : ℚ) (p : ClippedPrimitive) :
    Option Canvas :=
  let skclip := p.clip_rect
  match p.primitive with
  | Primitive.mesh m =>
    let c := canvas.setMatrix (dpiScaleMatrix dpi)
    let c := c.save
    match splitToU16 m with
    | Option.none => Option.none
    | Option.some meshes =>
      match drawSubmeshes c paints skclip meshes with
      | Option.none => Option.none
      | Option.some c2 => Option.some c2.restore
  | Primitive.callback data =>
    match data.callback with
    | CallbackPayload.foreign _ => Option.none
    | CallbackPayload.skia cb =>
      let skiaRect : Rectq := ⟨data.rect.l * dpi, data.rect.t * dpi,
                              data.rect.r * dpi, data.rect.b * dpi⟩
      let d := cb.callback skiaRect
      let c := canvas.save
      let c := c.clipRect skclip
      let c := c.translate data.rect.l data.rect.t
      let c := c.draw (DrawCmd.drawable d)
      Option.some c.restore

/-- The primitive loop, in list order. -/
def drawPrims (canvas : Canvas) (paints : Cache) (dpi : ℚ) :
    List ClippedPrimitive → Option Canvas
  | [] => Option.some canvas
  | p :: rest =>
    match drawPrim canvas paints dpi p with
    | Option.none => Option.none
    | Option.some c => drawPrims c paints dpi rest

/-- `Painter::paint_and_update_textures` (painter.rs lines 37-261):
apply every `set` entry, draw every primitive, then apply the `free`
list; a panic anywhere aborts the call. -/
def paintFrame (canvas : Canvas) (paints : Cache) (dpi : ℚ)
    (prims : List ClippedPrimitive) (delta : TexturesDelta) :
    Option (Canvas × Cache) :=
  match applySets paints delta.set with
  | Option.none => Option.none
  | Option.some paints2 =>
    match drawPrims canvas paints2 dpi prims with
    | Option.none => Option.none
    | Option.some canvas2 => Option.some (canvas2, applyFrees paints2 delta.free)

/-- One frame's worth of inputs to `paint_and_update_textures`. -/
structure Frame where
  canvas : Canvas
  dpi : ℚ
  prims : List ClippedPrimitive
  delta : TexturesDelta

/-- A sequence of frame calls against one `Painter`: the cache persists,
each frame's canvas is supplied by the caller. -/
def processFrames (paints : Cache) : List Frame → Option Cache
  | [] => Option.some paints
  | f :: rest =>
    match paintFrame f.canvas paints f.dpi f.prims f.delta with
    | Option.none => Option.none
    | Option.some (_, c) => processFrames c rest

theorem pos2Eq_zero_iff (u : Pos2f) : pos2Eq u pos2Zero = true ↔ u = pos2Zero := by
  cases u with
  | mk x y =>
    cases x <;> cases y <;>
      simp [pos2Eq, feq, pos2Zero, Pos2f.mk.injEq]

/-- C8: the vertex color (255,255,255,255) — straight-alpha white — passes
through the pipeline's un-premultiply conversion (divide red, green and
blue by alpha, keep alpha) unchanged: the output is exactly
(255,255,255,255). -/
theorem c8_white_round_trip : unpremul ⟨255, 255, 255, 255⟩ = ⟨255, 255, 255, 255⟩ := by
  norm_num [unpremul, u8ToF32, fdiv, fmul, f32AsU8]

/-- C10: for the premultiplied vertex color (0,0,0,0) the un-premultiply
step divides 0.0 by 0.0, which is NaN; the saturating `as u8` cast maps
NaN to 0, so the output is exactly fully transparent black (0,0,0,0). -/
theorem c10_alpha_zero_transparent_black :
    fdiv (u8ToF32 0) (u8ToF32 0) = F32.nan ∧ f32AsU8 F32.nan = 0 ∧
    unpremul ⟨0, 0, 0, 0⟩ = ⟨0, 0, 0, 0⟩ := by
  refine ⟨?_, rfl, ?_⟩ <;> norm_num [unpremul, u8ToF32, fdiv, fmul, f32AsU8]

/-- C4: a triangle whose three UVs are all exactly (0,0) has, after the
fixup, vertex 2's UV set to (0, 1/65536) and vertex 3's to (1/65536, 0)
while vertex 1's stays (0,0); a triangle with any UV different from
(0,0) is left completely unmodified. -/
theorem c4_uv_fixup (v0 v1 v2 : Vertex) :
    (v0.uv = pos2Zero → v1.uv = pos2Zero → v2.uv = pos2Zero →
      fixTriangle v0 v1 v2 =
        (v0, { v1 with uv := ⟨F32.val 0, F32.val (1 / 65536)⟩ },
             { v2 with uv := ⟨F32.val (1 / 65536), F32.val 0⟩ })) ∧
    (¬(v0.uv = pos2Zero ∧ v1.uv = pos2Zero ∧ v2.uv = pos2Zero) →
      fixTriangle v0 v1 v2 = (v0, v1, v2)) := by
  constructor
  · intro h0 h1 h2
    unfold fixTriangle
    rw [if_pos]
    simp [(pos2Eq_zero_iff _).2 h0, (pos2Eq_zero_iff _).2 h1, (pos2Eq_zero_iff _).2 h2]
  · intro h
    unfold fixTriangle
    rw [if_neg]
    intro hc
    simp only [Bool.and_eq_true] at hc
    exact h ⟨(pos2Eq_zero_iff _).1 hc.1.1, (pos2Eq_zero_iff _).1 hc.1.2,
             (pos2Eq_zero_iff _).1 hc.2⟩

/-- Witness for C4 at concrete triangles: an all-zero-UV triangle is
perturbed exactly as stated, and a triangle with one nonzero UV is left
alone. -/
theorem c4_uv_fixup_witness :
    fixTriangle ⟨⟨F32.val 1, F32.val 2⟩, pos2Zero, ⟨1, 2, 3, 4⟩⟩
        ⟨⟨F32.val 3, F32.val 4⟩, pos2Zero, ⟨5, 6, 7, 8⟩⟩
        ⟨⟨F32.val 5, F32.val 6⟩, pos2Zero, ⟨9, 10, 11, 12⟩⟩ =
      (⟨⟨F32.val 1, F32.val 2⟩, pos2Zero, ⟨1, 2, 3, 4⟩⟩,
       ⟨⟨F32.val 3, F32.val 4⟩, ⟨F32.val 0, F32.val (1 / 65536)⟩, ⟨5, 6, 7, 8⟩⟩,
       ⟨⟨F32.val 5, F32.val 6⟩, ⟨F32.val (1 / 65536), F32.val 0⟩, ⟨9, 10, 11, 12⟩⟩) ∧
    fixTriangle ⟨pos2Zero, ⟨F32.val 1, F32.val 0⟩, ⟨1, 2, 3, 4⟩⟩
        ⟨pos2Zero, pos2Zero, ⟨5, 6, 7, 8⟩⟩ ⟨pos2Zero, pos2Zero, ⟨9, 10, 11, 12⟩⟩ =
      (⟨pos2Zero, ⟨F32.val 1, F32.val 0⟩, ⟨1, 2, 3, 4⟩⟩,
       ⟨pos2Zero, pos2Zero, ⟨5, 6, 7, 8⟩⟩, ⟨pos2Zero, pos2Zero, ⟨9, 10, 11, 12⟩⟩) := by
  constructor
  · exact (c4_uv_fixup _ _ _).1 rfl rfl rfl
  · refine (c4_uv_fixup _ _ _).2 ?_
    intro h
    have := h.1
    simp [pos2Zero, Pos2f.mk.injEq] at this

/-- C5: a vertex with NaN in either position coordinate is pushed with
position exactly (0,0) while its UV and (converted) color are the same
as they would be without the fixup; a vertex without NaN keeps its
position; and each output slot of a triangle is unaffected by the other
slots' positions (only its own vertex and the triangle's UVs matter). -/
theorem c5_nan_fixup (v : Vertex) :
    ((v.pos.x.isNan = true ∨ v.pos.y.isNan = true) →
      pushVert v = ⟨⟨F32.val 0, F32.val 0⟩, v.uv, unpremul v.color⟩) ∧
    (v.pos.x.isNan = false → v.pos.y.isNan = false →
      pushVert v = ⟨v.pos, v.uv, unpremul v.color⟩) ∧
    (∀ w0 w1 w2 w0x : Vertex, w0.uv = w0x.uv →
      (emitTriangle w0x w1 w2).2 = (emitTriangle w0 w1 w2).2) ∧
    (∀ w0 w1 w2 w1x : Vertex, w1.uv = w1x.uv →
      (emitTriangle w0 w1x w2).1 = (emitTriangle w0 w1 w2).1 ∧
      (emitTriangle w0 w1x w2).2.2 = (emitTriangle w0 w1 w2).2.2) ∧
    (∀ w0 w1 w2 w2x : Vertex, w2.uv = w2x.uv →
      (emitTriangle w0 w1 w2x).1 = (emitTriangle w0 w1 w2).1 ∧
      (emitTriangle w0 w1 w2x).2.1 = (emitTriangle w0 w1 w2).2.1) := by
  refine ⟨?_, ?_, ?_, ?_, ?_⟩
  · intro h
    unfold pushVert fixPos
    rcases h with h | h <;> simp [h]
  · intro hx hy
    unfold pushVert fixPos
    simp [hx, hy]
  · intro w0 w1 w2 w0x h
    unfold emitTriangle fixTriangle
    rw [← h]
    cases pos2Eq w0.uv pos2Zero && pos2Eq w1.uv pos2Zero && pos2Eq w2.uv pos2Zero <;> simp
  · intro w0 w1 w2 w1x h
    unfold emitTriangle fixTriangle
    rw [← h]
    cases pos2Eq w0.uv pos2Zero && pos2Eq w1.uv pos2Zero && pos2Eq w2.uv pos2Zero <;> simp
  · intro w0 w1 w2 w2x h
    unfold emitTriangle fixTriangle
    rw [← h]
    cases pos2Eq w0.uv pos2Zero && pos2Eq w1.uv pos2Zero && pos2Eq w2.uv pos2Zero <;> simp

/-- Witness for C5 at a concrete vertex with a NaN x-coordinate. -/
theorem c5_nan_fixup_witness :
    pushVert ⟨⟨F32.nan, F32.val 7⟩, ⟨F32.val 3, F32.val 4⟩, ⟨0, 0, 0, 255⟩⟩ =
      ⟨⟨F32.val 0, F32.val 0⟩, ⟨F32.val 3, F32.val 4⟩, unpremul ⟨0, 0, 0, 255⟩⟩ ∧
    pushVert ⟨⟨F32.val 5, F32.val 7⟩, ⟨F32.val 3, F32.val 4⟩, ⟨0, 0, 0, 255⟩⟩ =
      ⟨⟨F32.val 5, F32.val 7⟩, ⟨F32.val 3, F32.val 4⟩, unpremul ⟨0, 0, 0, 255⟩⟩ :=
  ⟨(c5_nan_fixup _).1 (Or.inl rfl), (c5_nan_fixup _).2.1 rfl rfl⟩

theorem cache_remove_absent (c : Cache) (id : Nat) (h : c id = Option.none) :
    c.remove id = c := by
  funext j
  unfold Cache.remove
  by_cases hj : j = id
  · rw [if_pos hj, hj, h]
  · rw [if_neg hj]

theorem cache_remove_none (c : Cache) (a id : Nat) (h : c id = Option.none) :
    (c.remove a) id = Option.none := by
  unfold Cache.remove
  by_cases hj : id = a
  · rw [if_pos hj]
  · rw [if_neg hj]; exact h

theorem applyFrees_none (l : List Nat) : ∀ (c : Cache) (id : Nat),
    c id = Option.none → applyFrees c l id = Option.none := by
  induction l with
  | nil => intro c id h; exact h
  | cons a rest ih =>
    intro c id h
    exact ih (c.remove a) id (cache_remove_none c a id h)

/-- C9: freeing a texture id with no live cache entry is a no-op — the
free loop produces the same cache as if that id had not been in the
free list at all, so every subsequent frame behaves identically. -/
theorem c9_free_absent_noop (paints : Cache) (free1 free2 : List Nat) (id : Nat)
    (h : paints id = Option.none) :
    applyFrees paints (free1 ++ id :: free2) = applyFrees paints (free1 ++ free2) := by
  induction free1 generalizing paints with
  | nil =>
    show applyFrees (paints.remove id) free2 = applyFrees paints free2
    rw [cache_remove_absent paints id h]
  | cons a rest ih =>
    show applyFrees (paints.remove a) (rest ++ id :: free2) =
      applyFrees (paints.remove a) (rest ++ free2)
    exact ih (paints.remove a) (cache_remove_none paints a id h)

/-- Witness for C9: freeing the never-inserted id 5 between two other
frees changes nothing. -/
theorem c9_free_absent_noop_witness :
    applyFrees emptyCache ([3] ++ 5 :: [4]) = applyFrees emptyCache ([3] ++ [4]) :=
  c9_free_absent_noop emptyCache [3] [4] 5 rfl

/-- C6: each of the three contract violations aborts the frame call
(yields `none`, the model of a panic): a positioned (patch) delta for an
id with no cache entry; a mesh primitive (within the 16-bit vertex
limit, so that a draw of it is attempted) whose texture id has no cache
entry at draw time; a callback primitive carrying a foreign payload. -/
theorem c6_contract_violations :
    (∀ (paints : Cache) (id : Nat) (img : ImageData) (off : Nat × Nat)
        (opts : TextureOptions), paints id = Option.none →
      applySet paints (id, ⟨img, Option.some off, opts⟩) = Option.none) ∧
    (∀ (canvas : Canvas) (paints : Cache) (dpi : ℚ) (cr : Rectq) (m : Mesh),
      paints m.texture_id = Option.none → m.vertices.length ≤ u16Max →
      drawPrim canvas paints dpi ⟨cr, Primitive.mesh m⟩ = Option.none) ∧
    (∀ (canvas : Canvas) (paints : Cache) (dpi : ℚ) (cr rect : Rectq) (tag : Nat),
      drawPrim canvas paints dpi
        ⟨cr, Primitive.callback ⟨rect, CallbackPayload.foreign tag⟩⟩ = Option.none) := by
  refine ⟨?_, ?_, ?_⟩
  · intro paints id img off opts h
    cases off with
    | mk px py => simp [applySet, h]
  · intro canvas paints dpi cr m h hlen
    cases hb : buildTris m.vertices (m.indices.map fun i => i % 65536) with
    | none => simp [drawPrim, splitToU16, hlen, drawSubmeshes, hb]
    | some vs => simp [drawPrim, splitToU16, hlen, drawSubmeshes, hb, h]
  · intro canvas paints dpi cr rect tag
    rfl

/-- Shared sampling options for concrete witnesses. -/
def optsW : TextureOptions := ⟨TexFilter.nearest, TexFilter.nearest⟩

/-- A concrete canvas: identity transform, no clip, empty save stack. -/
def canvasW : Canvas := ⟨⟨1, 1, 0, 0⟩, [], [], []⟩

/-- A concrete clip rectangle. -/
def rectW : Rectq := ⟨0, 0, 1, 1⟩

/-- A concrete vertex at the origin. -/
def vertexW : Vertex := ⟨⟨F32.val 0, F32.val 0⟩, ⟨F32.val 0, F32.val 0⟩, ⟨0, 0, 0, 0⟩⟩

/-- A concrete one-triangle mesh referencing texture id 0. -/
def meshW : Mesh := ⟨0, [vertexW, vertexW, vertexW], [0, 1, 2]⟩

/-- A concrete cache entry wrapping a 1×1 transparent image. -/
def handleW : PaintHandle := ⟨mkPaint (blankImage 1 1) optsW, blankImage 1 1⟩

/-- A concrete cache holding texture id 0 only. -/
def cacheW : Cache := emptyCache.insert 0 handleW

/-- Witness for C6 at concrete inputs: a patch of an absent id, a mesh
draw against an absent id, and a foreign callback payload all abort. -/
theorem c6_contract_violations_witness :
    applySet emptyCache
        (0, ⟨ImageData.color (blankImage 1 1), Option.some (0, 0), optsW⟩) = Option.none ∧
    drawPrim canvasW emptyCache 1 ⟨rectW, Primitive.mesh meshW⟩ = Option.none ∧
    drawPrim canvasW emptyCache 1
        ⟨rectW, Primitive.callback ⟨rectW, CallbackPayload.foreign 0⟩⟩ = Option.none :=
  ⟨c6_contract_violations.1 emptyCache 0 (ImageData.color (blankImage 1 1)) (0, 0) optsW rfl,
   c6_contract_violations.2.1 canvasW emptyCache 1 rectW meshW rfl (by norm_num [meshW, u16Max]),
   c6_contract_violations.2.2 canvasW emptyCache 1 rectW rectW 0⟩

theorem srcOver_transparent (s : Pixel) : srcOverPix s ⟨0, 0, 0, 0⟩ = s := by
  simp [srcOverPix, srcOverChannel]

/-- C2: patching an existing W×H cache entry replaces it (same id) with
an image that is still W×H, whose pixels inside the patch rectangle are
bit-identical to the patch content and whose pixels outside it are
bit-identical to the pre-patch image. -/
theorem c2_patch_composite (paints : Cache) (id : Nat) (h : PaintHandle) (delta : Image)
    (px py : Nat) (opts : TextureOptions) (hid : paints id = Option.some h) :
    ((applySet paints (id, ⟨ImageData.color delta, Option.some (px, py), opts⟩)).bind
        (fun c => c id) =
      Option.some ⟨mkPaint (applyPatch h.image delta px py) opts,
                   applyPatch h.image delta px py⟩) ∧
    (applyPatch h.image delta px py).width = h.image.width ∧
    (applyPatch h.image delta px py).height = h.image.height ∧
    (∀ x y, x < h.image.width → y < h.image.height →
      ((px ≤ x ∧ x < px + delta.width ∧ py ≤ y ∧ y < py + delta.height) →
        (applyPatch h.image delta px py).pix x y = delta.pix (x - px) (y - py)) ∧
      (¬(px ≤ x ∧ x < px + delta.width ∧ py ≤ y ∧ y < py + delta.height) →
        (applyPatch h.image delta px py).pix x y = h.image.pix x y)) := by
  refine ⟨?_, rfl, rfl, ?_⟩
  · simp [applySet, hid, ImageData.decode, Cache.insert, Cache.remove]
  · intro x y hx hy
    constructor
    · rintro ⟨h1, h2, h3, h4⟩
      simp [applyPatch, drawImageAt, clearClip, IRect.mem, h1, h2, h3, h4, srcOver_transparent]
    · intro hout
      unfold applyPatch drawImageAt clearClip blankImage
      simp only [IRect.mem, Option.mem_def, Option.some.injEq, forall_eq']
      have hnot : ¬((px ≤ x ∧ x < px + delta.width ∧ py ≤ y ∧ y < py + delta.height) ∧
          px ≤ x ∧ x < px + delta.width ∧ py ≤ y ∧ y < py + delta.height) := by
        intro hc; exact hout hc.1
      rw [if_neg hnot, if_neg hout, if_pos]
      · rw [srcOver_transparent, Nat.sub_zero, Nat.sub_zero]
      · constructor
        · intro c hc; cases hc
        · omega

/-- A concrete 2×2 pre-patch image with distinguishable pixels. -/
def imgOldW : Image := ⟨2, 2, fun x y => ⟨x + 1, y + 2, 3, 4⟩⟩

/-- A concrete 1×1 patch image. -/
def imgDeltaW : Image := ⟨1, 1, fun _ _ => ⟨9, 9, 9, 9⟩⟩

/-- The cache entry holding the pre-patch image under id 7. -/
def hOldW : PaintHandle := ⟨mkPaint imgOldW optsW, imgOldW⟩

/-- A concrete cache holding id 7 only. -/
def cacheOldW : Cache := emptyCache.insert 7 hOldW

/-- Witness for C2: patching the 2×2 image under id 7 with a 1×1 patch
at offset (1,0) keeps the dimensions, rewrites the patched pixel and
preserves an unpatched one. -/
theorem c2_patch_composite_witness :
    ((applySet cacheOldW (7, ⟨ImageData.color imgDeltaW, Option.some (1, 0), optsW⟩)).bind
        (fun c => c 7) =
      Option.some ⟨mkPaint (applyPatch hOldW.image imgDeltaW 1 0) optsW,
                   applyPatch hOldW.image imgDeltaW 1 0⟩) ∧
    (applyPatch hOldW.image imgDeltaW 1 0).width = 2 ∧
    (applyPatch hOldW.image imgDeltaW 1 0).height = 2 ∧
    (applyPatch hOldW.image imgDeltaW 1 0).pix 1 0 = imgDeltaW.pix 0 0 ∧
    (applyPatch hOldW.image imgDeltaW 1 0).pix 0 1 = hOldW.image.pix 0 1 := by
  have base := c2_patch_composite cacheOldW 7 hOldW imgDeltaW 1 0 optsW rfl
  refine ⟨base.1, base.2.1, base.2.2.1, ?_, ?_⟩
  · exact (base.2.2.2 1 0 (by norm_num [hOldW, imgOldW]) (by norm_num [hOldW, imgOldW])).1
      (by norm_num [imgDeltaW])
  · refine (base.2.2.2 0 1 (by norm_num [hOldW, imgOldW]) (by norm_num [hOldW, imgOldW])).2 ?_
    intro hc
    omega

theorem drawSubmeshes_state (paints : Cache) (skclip : Rectq) :
    ∀ (ms : List Mesh) (c c2 : Canvas),
      drawSubmeshes c paints skclip ms = Option.some c2 →
      c2.matrix = c.matrix ∧ c2.saved = c.saved := by
  intro ms
  induction ms with
  | nil =>
    intro c c2 h
    simp only [drawSubmeshes, Option.some.injEq] at h
    subst h
    exact ⟨rfl, rfl⟩
  | cons m rest ih =>
    intro c c2 h
    unfold drawSubmeshes at h
    cases hb : buildTris m.vertices m.indices with
    | none => rw [hb] at h; exact Option.noConfusion h
    | some vs =>
      rw [hb] at h
      cases hl : paints m.texture_id with
      | none => rw [hl] at h; exact Option.noConfusion h
      | some hh =>
        rw [hl] at h
        have hrec := ih _ _ h
        simpa [Canvas.clipRect, Canvas.draw] using hrec

theorem restore_of_saved (c : Canvas) (m : Xform) (k : List Rectq)
    (rest : List (Xform × List Rectq)) (h : c.saved = (m, k) :: rest) :
    c.restore.matrix = m ∧ c.restore.clip = k ∧ c.restore.saved = rest := by
  unfold Canvas.restore
  rw [h]
  exact ⟨rfl, rfl, rfl⟩

/-- C1 (amended): processing any primitive restores the clip and the
save stack to their prior values, and a callback primitive also
restores the transform; a mesh primitive, however, leaves the transform
equal to the uniform dpi scale — the `set_matrix` at painter.rs line 163
runs before the save at line 164, so it survives the restore and is the
transform the next primitive observes. -/
theorem c1_state_scoping (canvas : Canvas) (paints : Cache) (dpi : ℚ)
    (p : ClippedPrimitive) (c2 : Canvas)
    (h : drawPrim canvas paints dpi p = Option.some c2) :
    c2.clip = canvas.clip ∧ c2.saved = canvas.saved ∧
    (∀ m, p.primitive = Primitive.mesh m → c2.matrix = dpiScaleMatrix dpi) ∧
    (∀ d, p.primitive = Primitive.callback d → c2.matrix = canvas.matrix) := by
  obtain ⟨cr, prim⟩ := p
  cases prim with
  | mesh m =>
    unfold drawPrim at h
    simp only at h
    split at h
    · exact Option.noConfusion h
    · split at h
      · exact Option.noConfusion h
      · rename_i cm hd
        simp only [Option.some.injEq] at h
        subst h
        have hst := drawSubmeshes_state paints cr _ _ _ hd
        have hsaved : cm.saved = (dpiScaleMatrix dpi, canvas.clip) :: canvas.saved := by
          rw [hst.2]; rfl
        have hres := restore_of_saved cm (dpiScaleMatrix dpi) canvas.clip canvas.saved hsaved
        refine ⟨hres.2.1, hres.2.2, ?_, ?_⟩
        · intro m2 _; exact hres.1
        · intro d hd2; exact Primitive.noConfusion hd2
  | callback data =>
    obtain ⟨rect, payload⟩ := data
    cases payload with
    | foreign tag =>
      unfold drawPrim at h
      exact Option.noConfusion h
    | skia cb =>
      unfold drawPrim at h
      simp only [Option.some.injEq] at h
      subst h
      refine ⟨rfl, rfl, ?_, ?_⟩
      · intro m2 hm; exact Primitive.noConfusion hm
      · intro d _; rfl

/-- Counterexample for C1 as stated: on a canvas whose transform is the
identity, a mesh primitive processed at device pixel ratio 2 leaves the
canvas transform equal to the uniform scale by 2, not equal to the
transform in effect before the primitive — the transform state bleeds
into the next primitive. -/
theorem c1_counterexample :
    (drawPrim canvasW cacheW 2 ⟨rectW, Primitive.mesh meshW⟩).map Canvas.matrix =
      Option.some (dpiScaleMatrix 2) ∧
    Option.some (dpiScaleMatrix 2) ≠ Option.some canvasW.matrix := by
  constructor
  · rfl
  · intro hc
    simp only [Option.some.injEq] at hc
    have : (2 : ℚ) = 1 := congrArg Xform.sx hc
    norm_num at this

/-- The vertex list the concrete one-triangle mesh produces. -/
def meshVsW : List SkVertex :=
  [(emitTriangle vertexW vertexW vertexW).1, (emitTriangle vertexW vertexW vertexW).2.1,
   (emitTriangle vertexW vertexW vertexW).2.2]

/-- The canvas produced by drawing the concrete mesh primitive. -/
def meshResultW : Canvas :=
  ((((canvasW.setMatrix (dpiScaleMatrix 2)).save).clipRect rectW).draw
    (DrawCmd.vertices meshVsW BlendMode.modulate handleW.paint)).restore

/-- The canvas produced by drawing a concrete callback primitive. -/
def cbResultW : Canvas :=
  ((((canvasW.save).clipRect rectW).translate 0 0).draw (DrawCmd.drawable ⟨0⟩)).restore

/-- Witness for the amended C1 at concrete primitives: the mesh leaves
the dpi scale installed but restores clip and save stack; the callback
restores all three state components. -/
theorem c1_state_scoping_witness :
    meshResultW.clip = canvasW.clip ∧ meshResultW.saved = canvasW.saved ∧
    meshResultW.matrix = dpiScaleMatrix 2 ∧
    cbResultW.clip = canvasW.clip ∧ cbResultW.saved = canvasW.saved ∧
    cbResultW.matrix = canvasW.matrix := by
  have hm := c1_state_scoping canvasW cacheW 2 ⟨rectW, Primitive.mesh meshW⟩ meshResultW rfl
  have hc := c1_state_scoping canvasW cacheW 2
    ⟨rectW, Primitive.callback ⟨rectW, CallbackPayload.skia ⟨fun _ => ⟨0⟩⟩⟩⟩ cbResultW rfl
  exact ⟨hm.1, hm.2.1, hm.2.2.1 meshW rfl, hc.1, hc.2.1, hc.2.2.2 _ rfl⟩

/-- The set of texture ids with a live cache entry. -/
def liveSet (c : Cache) : Set Nat := { id | (c id).isSome = true }

/-- The ids a frame's `set` list touches. -/
def setIds (l : List (Nat × ImageDelta)) : Set Nat := { id | id ∈ l.map Prod.fst }

/-- The ids a frame's `free` list removes. -/
def freeIds (l : List Nat) : Set Nat := { id | id ∈ l }

/-- The specification fold for one frame: all of the frame's `set` ids
inserted, then all of its `free` ids removed. -/
def frameLive (s : Set Nat) (f : Frame) : Set Nat :=
  (s ∪ setIds f.delta.set) \ freeIds f.delta.free

/-- The specification fold over a frame sequence, in frame order. -/
def specLive (s : Set Nat) (frames : List Frame) : Set Nat := frames.foldl frameLive s

theorem liveSet_insert (c : Cache) (id : Nat) (h : PaintHandle) :
    liveSet (c.insert id h) = liveSet c ∪ {id} := by
  ext j
  by_cases hj : j = id <;> simp [liveSet, Cache.insert, hj]

theorem liveSet_remove (c : Cache) (id : Nat) :
    liveSet (c.remove id) = liveSet c \ {id} := by
  ext j
  by_cases hj : j = id <;> simp [liveSet, Cache.remove, hj]

theorem applySet_live (c c2 : Cache) (e : Nat × ImageDelta)
    (h : applySet c e = Option.some c2) : liveSet c2 = liveSet c ∪ {e.1} := by
  obtain ⟨id, d⟩ := e
  unfold applySet at h
  simp only at h
  cases hp : d.pos with
  | none =>
    rw [hp] at h
    simp only [Option.some.injEq] at h
    subst h
    exact liveSet_insert c id _
  | some off =>
    obtain ⟨px, py⟩ := off
    rw [hp] at h
    cases hc : c id with
    | none => rw [hc] at h; exact Option.noConfusion h
    | some hh =>
      rw [hc] at h
      simp only [Option.some.injEq] at h
      subst h
      rw [liveSet_insert, liveSet_remove]
      ext j
      by_cases hj : j = id
      · subst hj; simp [liveSet, hc]
      · simp [hj]

theorem applySets_live (l : List (Nat × ImageDelta)) :
    ∀ (c c2 : Cache), applySets c l = Option.some c2 →
      liveSet c2 = liveSet c ∪ setIds l := by
  induction l with
  | nil =>
    intro c c2 h
    simp only [applySets, Option.some.injEq] at h
    subst h
    ext j
    simp [setIds]
  | cons e rest ih =>
    intro c c2 h
    unfold applySets at h
    cases ha : applySet c e with
    | none => rw [ha] at h; exact Option.noConfusion h
    | some c1 =>
      rw [ha] at h
      rw [ih c1 c2 h, applySet_live c c1 e ha]
      ext j
      simp [setIds, Set.mem_union]
      tauto

theorem applyFrees_live (l : List Nat) : ∀ (c : Cache),
    liveSet (applyFrees c l) = liveSet c \ freeIds l := by
  induction l with
  | nil =>
    intro c
    ext j
    simp [applyFrees, freeIds]
  | cons id rest ih =>
    intro c
    show liveSet (applyFrees (c.remove id) rest) = _
    rw [ih (c.remove id), liveSet_remove]
    ext j
    simp [freeIds, Set.mem_diff]
    tauto

theorem paintFrame_live (canvas : Canvas) (paints : Cache) (dpi : ℚ)
    (prims : List ClippedPrimitive) (delta : TexturesDelta) (canvas2 : Canvas) (c2 : Cache)
    (h : paintFrame canvas paints dpi prims delta = Option.some (canvas2, c2)) :
    liveSet c2 = (liveSet paints ∪ setIds delta.set) \ freeIds delta.free := by
  unfold paintFrame at h
  cases hs : applySets paints delta.set with
  | none => rw [hs] at h; exact Option.noConfusion h
  | some p2 =>
    rw [hs] at h
    simp only at h
    cases hd : drawPrims canvas p2 dpi prims with
    | none => rw [hd] at h; exact Option.noConfusion h
    | some cv2 =>
      rw [hd] at h
      simp only [Option.some.injEq, Prod.mk.injEq] at h
      rw [← h.2, applyFrees_live, applySets_live delta.set paints p2 hs]

/-- C3: after any successfully processed sequence of frames, the set of
live cache ids equals the fold, in frame order, of each frame's `set`
ids as insertions followed by that frame's `free` ids as removals. -/
theorem c3_live_ids (frames : List Frame) : ∀ (paints c2 : Cache),
    processFrames paints frames = Option.some c2 →
    liveSet c2 = specLive (liveSet paints) frames := by
  induction frames with
  | nil =>
    intro paints c2 h
    simp only [processFrames, Option.some.injEq] at h
    subst h
    rfl
  | cons f rest ih =>
    intro paints c2 h
    unfold processFrames at h
    cases hp : paintFrame f.canvas paints f.dpi f.prims f.delta with
    | none => rw [hp] at h; exact Option.noConfusion h
    | some pair =>
      rw [hp] at h
      obtain ⟨cv2, p2⟩ := pair
      rw [ih p2 c2 h]
      show specLive (liveSet p2) rest = specLive (frameLive (liveSet paints) f) rest
      rw [paintFrame_live f.canvas paints f.dpi f.prims f.delta cv2 p2 hp]
      rfl

/-- A full (non-positioned) delta carrying a 1×1 image. -/
def frameDeltaW : ImageDelta := ⟨ImageData.color (blankImage 1 1), Option.none, optsW⟩

/-- Two concrete frames: the first sets ids 0 and 1, the second frees 0. -/
def framesW : List Frame :=
  [⟨canvasW, 1, [], ⟨[(0, frameDeltaW), (1, frameDeltaW)], []⟩⟩,
   ⟨canvasW, 1, [], ⟨[], [0]⟩⟩]

/-- The cache the two concrete frames produce. -/
def cacheFinalW : Cache := ((emptyCache.insert 0 handleW).insert 1 handleW).remove 0

/-- Witness for C3: the live set after the two concrete frames equals
the specification fold over them. -/
theorem c3_live_ids_witness :
    liveSet cacheFinalW = specLive (liveSet emptyCache) framesW :=
  c3_live_ids framesW emptyCache cacheFinalW rfl

/-- Recursion principle following the triangle loop's three-at-a-time
consumption of the index list. -/
def threeStepInd {P : List Nat → Prop} (h0 : P []) (h1 : ∀ a, P [a]) (h2 : ∀ a b, P [a, b])
    (h3 : ∀ a b c rest, P rest → P (a :: b :: c :: rest)) : ∀ l, P l
  | [] => h0
  | [a] => h1 a
  | [a, b] => h2 a b
  | a :: b :: c :: rest => h3 a b c rest (threeStepInd h0 h1 h2 h3 rest)

theorem buildTris_isSome (verts : List Vertex) :
    ∀ idx : List Nat, idx.length % 3 = 0 → (∀ i ∈ idx, i < verts.length) →
      (buildTris verts idx).isSome = true := by
  intro idx
  induction idx using threeStepInd with
  | h0 => intro _ _; rfl
  | h1 a => intro hlen _; simp at hlen
  | h2 a b => intro hlen _; simp at hlen
  | h3 a b c rest ih =>
    intro hlen hlt
    have ha : a < verts.length := hlt a (by simp)
    have hb : b < verts.length := hlt b (by simp)
    have hc : c < verts.length := hlt c (by simp)
    have hrest : rest.length % 3 = 0 := by
      simp only [List.length_cons] at hlen; omega
    have hout := ih hrest (fun i hi => hlt i (by simp [hi]))
    obtain ⟨out, ho⟩ := Option.isSome_iff_exists.mp hout
    unfold buildTris
    rw [List.getElem?_eq_getElem ha, List.getElem?_eq_getElem hb,
        List.getElem?_eq_getElem hc, ho]
    rfl

theorem map_mod_eq (l : List Nat) (h : ∀ i ∈ l, i < 65536) :
    l.map (fun i => i % 65536) = l := by
  induction l with
  | nil => rfl
  | cons a rest ih =>
    simp only [List.map_cons, List.cons.injEq]
    exact ⟨Nat.mod_eq_of_lt (h a (by simp)), ih (fun i hi => h i (by simp [hi]))⟩

theorem drawPrim_mesh_isSome (canvas : Canvas) (paints : Cache) (dpi : ℚ) (cr : Rectq)
    (m : Mesh) (hv : m.vertices.length ≤ u16Max) (h3 : m.indices.length % 3 = 0)
    (hlt : ∀ i ∈ m.indices, i < m.vertices.length)
    (htex : (paints m.texture_id).isSome = true) :
    (drawPrim canvas paints dpi ⟨cr, Primitive.mesh m⟩).isSome = true := by
  have hmap : m.indices.map (fun i => i % 65536) = m.indices :=
    map_mod_eq _ (fun i hi =>
      lt_of_lt_of_le (hlt i hi) (le_trans hv (by norm_num [u16Max])))
  obtain ⟨hh, hhh⟩ := Option.isSome_iff_exists.mp htex
  obtain ⟨vs, hvs⟩ := Option.isSome_iff_exists.mp
    (buildTris_isSome m.vertices m.indices h3 hlt)
  simp [drawPrim, splitToU16, hv, hmap, drawSubmeshes, hvs, hhh]

theorem drawPrims_isSome (paints : Cache) (dpi : ℚ) :
    ∀ (prims : List ClippedPrimitive) (canvas : Canvas),
      (∀ p ∈ prims, ∃ m, p.primitive = Primitive.mesh m ∧
        m.vertices.length ≤ u16Max ∧ m.indices.length % 3 = 0 ∧
        (∀ i ∈ m.indices, i < m.vertices.length) ∧
        (paints m.texture_id).isSome = true) →
      (drawPrims canvas paints dpi prims).isSome = true := by
  intro prims
  induction prims with
  | nil => intro canvas _; rfl
  | cons p rest ih =>
    intro canvas h
    obtain ⟨m, hm, hv, h3, hlt, htex⟩ := h p (by simp)
    obtain ⟨cr, prim⟩ := p
    simp only at hm
    subst hm
    obtain ⟨c1, hc1⟩ := Option.isSome_iff_exists.mp
      (drawPrim_mesh_isSome canvas paints dpi cr m hv h3 hlt htex)
    unfold drawPrims
    rw [hc1]
    exact ih c1 (fun q hq => h q (by simp [hq]))

/-- C7: within one frame call, every texture `set` entry is applied
before any primitive is drawn, and every `free` id is evicted only
after all primitive draws: with the post-`set` cache `paints2`, a frame
whose primitives are valid meshes over ids live in `paints2` draws all
of them successfully — even those whose texture id is in this frame's
`free` list, and even for primitives after the first — and only the
returned cache has the `free` ids removed. -/
theorem applyFrees_mem_none (l : List Nat) : ∀ (c : Cache) (id : Nat), id ∈ l →
    applyFrees c l id = Option.none := by
  induction l with
  | nil => intro c id hid; cases hid
  | cons a rest ih =>
    intro c id hid
    show applyFrees (c.remove a) rest id = Option.none
    rcases List.mem_cons.mp hid with h1 | h2
    · subst h1
      exact applyFrees_none rest _ id (by simp [Cache.remove])
    · exact ih _ id h2

theorem c7_frame_ordering (canvas : Canvas) (paints : Cache) (dpi : ℚ)
    (prims : List ClippedPrimitive) (delta : TexturesDelta) (paints2 : Cache)
    (hsets : applySets paints delta.set = Option.some paints2)
    (hprims : ∀ p ∈ prims, ∃ m, p.primitive = Primitive.mesh m ∧
      m.vertices.length ≤ u16Max ∧ m.indices.length % 3 = 0 ∧
      (∀ i ∈ m.indices, i < m.vertices.length) ∧
      (paints2 m.texture_id).isSome = true) :
    (∃ canvas2, paintFrame canvas paints dpi prims delta =
      Option.some (canvas2, applyFrees paints2 delta.free)) ∧
    (∀ id ∈ delta.free, applyFrees paints2 delta.free id = Option.none) := by
  constructor
  · obtain ⟨c2, hc2⟩ := Option.isSome_iff_exists.mp
      (drawPrims_isSome paints2 dpi prims canvas hprims)
    exact ⟨c2, by simp [paintFrame, hsets, hc2]⟩
  · intro id hid
    exact applyFrees_mem_none delta.free paints2 id hid

/-- The concrete mesh primitive over texture id 0. -/
def meshPrimW : ClippedPrimitive := ⟨rectW, Primitive.mesh meshW⟩

/-- A concrete frame delta that sets id 0 and frees id 0 in the same
frame. -/
def tdeltaW : TexturesDelta := ⟨[(0, frameDeltaW)], [0]⟩

/-- The cache after the concrete frame's `set` entries. -/
def cacheSetW : Cache := emptyCache.insert 0 handleW

/-- Witness for C7: a frame that uploads id 0, draws two mesh
primitives referencing id 0, and frees id 0 succeeds — both draws see
the uploaded texture, the free takes effect only in the returned
cache. -/
theorem c7_frame_ordering_witness :
    (∃ canvas2, paintFrame canvasW emptyCache 1 [meshPrimW, meshPrimW] tdeltaW =
      Option.some (canvas2, applyFrees cacheSetW tdeltaW.free)) ∧
    (∀ id ∈ tdeltaW.free, applyFrees cacheSetW tdeltaW.free id = Option.none) := by
  refine c7_frame_ordering canvasW emptyCache 1 [meshPrimW, meshPrimW] tdeltaW cacheSetW rfl ?_
  intro p hp
  have hpw : p = meshPrimW := by
    rcases List.mem_cons.mp hp with h | h
    · exact h
    · rcases List.mem_cons.mp h with h2 | h2
      · exact h2
      · cases h2
  subst hpw
  exact ⟨meshW, rfl, by norm_num [meshW, u16Max], by norm_num [meshW],
    by decide, rfl⟩
